import Mathlib

/-!
Shallow embedding of `piotrjk/example_restapi_tests` (a pytest load-testing
harness plus a small FastAPI service) and proofs about it.

Sources embedded:
* `src/tests/test_performance.py` — `chunker`, `sequential_load_function`,
  `concurrent_load_function`, the statistics lines of `do_performance_test`,
  and `visualize_requests`;
* `src/tests/conftest.py` — the `request_function` closure (timeout → `None`);
* `src/api/main.py` — `ID_LIMIT` clamping and `make_response`.

Time stamps and durations are modelled as rationals (`ℚ`); Python floats are
idealised as exact rationals.  The request traffic a load loop observes is
modelled as a finite script of request events: each event records the
wall-clock time the call took and the response (`none` = transport timeout),
so the nondeterminism of the network is made an explicit input.
-/

/-- One entry of the `timings` list built by the load functions:
`(monotonic start time, reported duration, success flag)`. -/
structure Sample where
  start : ℚ
  dur : ℚ
  ok : Bool
  deriving Repr, DecidableEq

/-- An HTTP response as the harness sees it: `requests.Response.ok` and
`requests.Response.elapsed.total_seconds()`. -/
structure Resp where
  elapsed : ℚ
  ok : Bool
  deriving Repr, DecidableEq

/-- What the transport layer does for one `requests_session.get` call. -/
inductive Transport where
  | timeout
  | completed (r : Resp)
  deriving Repr, DecidableEq

/-- `conftest.serve_api`'s `request_function` closure: it issues the GET and
returns the response, except that a `requests.Timeout` is caught and turned
into `None` instead of propagating. -/
def request_function : Transport → Option Resp
  | .timeout => none
  | .completed r => some r

/-- One scripted request event seen by a load loop: the wall-clock duration
of the whole `send_request_fn` call, and its result (`none` models the
closure returning `None` on a transport timeout). -/
structure ReqEvent where
  took : ℚ
  resp : Option Resp
  deriving Repr, DecidableEq

/-- The sample appended by one iteration of `sequential_load_function`'s body:
`(now, took, False)` when the response is `None` or not ok, else
`(now, response.elapsed.total_seconds(), True)`. -/
def sampleOf (now : ℚ) (e : ReqEvent) : Sample :=
  match e.resp with
  | none => ⟨now, e.took, false⟩
  | some r => if r.ok then ⟨now, r.elapsed, true⟩ else ⟨now, e.took, false⟩

/-- `test_performance.sequential_load_function`: loop
`now = monotonic(); if now > test_ends_at: break; … append sample`.
The monotonic clock is modelled as advancing by exactly the wall time of each
request (loop overhead is idealised to zero); the event script is finite, and
an exhausted script ends the run. -/
def sequential_load_function (test_ends_at : ℚ) : ℚ → List ReqEvent → List Sample
  | _, [] => []
  | now, e :: rest =>
      if test_ends_at < now then []
      else sampleOf now e :: sequential_load_function test_ends_at (now + e.took) rest

/-- `test_performance.concurrent_load_function`, modelled after the join:
each worker's `sequential_load_function` result is given as a list, the
lists are concatenated in future order and sorted by the tuple's first
component (`key=lambda i: i[0]`, i.e. `startTime`); Python's `sorted` is
stable, as is `List.mergeSort`. -/
def concurrent_load_function (workerResults : List (List Sample)) : List Sample :=
  (workerResults.flatten).mergeSort (fun a b => decide (a.start ≤ b.start))

/-! ### StatisticsEngine: `statistics.mean` / `statistics.stdev` and the
summary lines of `do_performance_test` -/

/-- `statistics.mean`: raises `StatisticsError` on an empty sequence,
otherwise the arithmetic mean. -/
def statistics_mean (xs : List ℚ) : Except String ℚ :=
  if xs.length = 0 then .error "mean requires at least one data point"
  else .ok (xs.sum / (xs.length : ℚ))

/-- The square of `statistics.stdev`: the unbiased (n-1) sample variance.
`statistics.stdev` raises `StatisticsError` when fewer than two data points
are available; the square root itself is irrational in general, so the
embedding carries the variance (stdev is its nonnegative square root). -/
def statistics_stdev_sq (xs : List ℚ) : Except String ℚ :=
  if xs.length < 2 then .error "stdev requires at least two data points"
  else
    let m := xs.sum / (xs.length : ℚ)
    .ok ((xs.map (fun x => (x - m) ^ 2)).sum / ((xs.length : ℚ) - 1))

/-- The aggregate metrics `do_performance_test` computes from `timings`
(the spec's `summarize` contract): request count, failed count, mean of the
recorded durations, and the squared sample standard deviation. -/
structure Summary where
  count : ℕ
  failedCount : ℕ
  meanLatency : ℚ
  stdevLatencySq : ℚ
  deriving Repr, DecidableEq

/-- The statistics portion of `do_performance_test`: it indexes
`timings[-1]` (an `IndexError` on an empty list), takes
`elapsed_times = tuple(t[1] for t in timings)`, counts entries whose third
item is `False`, and calls `statistics.mean` / `statistics.stdev`, whose
`StatisticsError` propagates to the caller (there is no `try` around them,
so the calling test aborts). -/
def summarize (timings : List Sample) : Except String Summary :=
  if timings.isEmpty then .error "IndexError: list index out of range"
  else
    let elapsed_times := timings.map (·.dur)
    let failed_requests := (timings.filter (fun t => !t.ok)).length
    match statistics_mean elapsed_times, statistics_stdev_sq elapsed_times with
    | .error e, _ => .error e
    | .ok _, .error e => .error e
    | .ok m, .ok v => .ok ⟨timings.length, failed_requests, m, v⟩

/-! ### The API: `src/api/main.py` -/

/-- `ID_LIMIT = max(0, int(os.environ.get("ID_LIMIT", "100")))`, as a function
of the integer parsed from the environment variable. -/
def ID_LIMIT_of (env : ℤ) : ℤ := max 0 env

/-- What an endpoint returns: a JSON body `{"item_id": id}` on success, or an
`HTTPException` with a status code and detail string. -/
inductive ApiResponse where
  | body (item_id : ℤ)
  | httpError (status : ℕ) (detail : String)
  deriving Repr, DecidableEq

/-- `api.main.make_response` with `MAX_DELAY = 0` (the `asyncio.sleep` branch
is not entered): 404 when `item_id > ID_LIMIT`, else `{"item_id": item_id}`.
`make_response` reads no mutable state, so it is a pure function of the
configured limit and the requested id. -/
def make_response (idLimit : ℤ) (item_id : ℤ) : ApiResponse :=
  if item_id > idLimit then
    .httpError 404 ("Item " ++ toString item_id ++ " was not found.")
  else .body item_id

/-- The `/people/{item_id}` endpoint: it just awaits `make_response`. -/
def people (idLimit : ℤ) (item_id : ℤ) : ApiResponse := make_response idLimit item_id

/-- The `/planets/{item_id}` endpoint: it just awaits `make_response`. -/
def planets (idLimit : ℤ) (item_id : ℤ) : ApiResponse := make_response idLimit item_id

/-- The `/starships/{item_id}` endpoint: it just awaits `make_response`. -/
def starships (idLimit : ℤ) (item_id : ℤ) : ApiResponse := make_response idLimit item_id

/-! ### `chunker` and the visualizer -/

/-- The tuples produced by `zip_longest(*[iter(xs)] * n, fillvalue=None)`:
successive groups of `n` items pulled from one shared iterator, the last
group padded with `None` up to length `n`.  With `n = 0` there are no
iterators at all and `zip_longest()` yields nothing. -/
def zipLongestChunks : ℕ → List (Option ℤ) → List (List (Option ℤ))
  | _, [] => []
  | 0, _ :: _ => []
  | n + 1, x :: xs =>
      (x :: (xs.take n ++ List.replicate (n - xs.length) none))
        :: zipLongestChunks (n + 1) (xs.drop n)
termination_by _n xs => xs.length
decreasing_by
  simp only [List.length_drop, List.length_cons]
  omega

/-- `test_performance.chunker`: each `zip_longest` tuple with its `None`
entries filtered out (`tuple(i for i in chunk if i is not None)`). -/
def chunker (xs : List (Option ℤ)) (n : ℕ) : List (List ℤ) :=
  (zipLongestChunks n xs).map (fun c => c.filterMap id)

/-- Python `int()` applied to a rational: truncation toward zero. -/
def pyInt (q : ℚ) : ℤ := if 0 ≤ q then ⌊q⌋ else ⌈q⌉

/-- `int(r_status)` for a boolean status. -/
def statusInt (b : Bool) : ℤ := if b then 1 else 0

/-- One `requests_per_second[int_r_time].append(int(r_status))` step on the
insertion-ordered dictionary (`try append / except KeyError insert`). -/
def addStatus : List (ℤ × List ℤ) → ℤ → ℤ → List (ℤ × List ℤ)
  | [], k, v => [(k, [v])]
  | (k', vs) :: rest, k, v =>
      if k' = k then (k', vs ++ [v]) :: rest else (k', vs) :: addStatus rest k v

/-- The `requests_per_second` dictionary of `visualize_requests`: keys are
`int(r_time)` in insertion order (Python dicts preserve it), values the
lists of `int(r_status)` in sample order. -/
def requests_per_second (timings : List Sample) : List (ℤ × List ℤ) :=
  timings.foldl (fun acc s => addStatus acc (pyInt s.start) (statusInt s.ok)) []

/-- `most_requests_in_second = max(len(v) for v in requests_per_second.values())`,
totalised with `0` on an empty dictionary (where Python's `max` would raise). -/
def most_requests_in_second (timings : List Sample) : ℕ :=
  ((requests_per_second timings).map (fun kv => kv.2.length)).foldr max 0

/-- Python `round(m / cols)` for nonnegative integers (`cols > 0`): float
`round` is round-half-to-even; on the exact rational `m / cols` that is:
truncate, then round up when the remainder exceeds half, and break an exact
half toward the even quotient. -/
def pyRoundDiv (m cols : ℕ) : ℕ :=
  let q := m / cols
  let r := m % cols
  if 2 * r < cols then q
  else if cols < 2 * r then q + 1
  else if q % 2 = 0 then q else q + 1

/-- `max_requests_in_column = round(most_requests_in_second / columns)` —
note: no minimum is applied in the code. -/
def max_requests_in_column (timings : List Sample) (columns : ℕ) : ℕ :=
  pyRoundDiv (most_requests_in_second timings) columns

/-- One cell of a row: solid iff `sum(chunk) / len(chunk) >= 0.5`. -/
def cellSolid (chunk : List ℤ) : Bool :=
  decide ((1 : ℚ) / 2 ≤ (chunk.sum : ℚ) / (chunk.length : ℚ))

/-- The data content of the rows `visualize_requests` renders: for the `i`-th
dictionary entry (via `enumerate`), the row carries the index `i`, the pass
count `ok = sum(requests_in_second)`, the fail count `len - ok`, and one
solid/shaded cell per `chunker` chunk. -/
def visualize_rows (timings : List Sample) (columns : ℕ) :
    List (ℕ × ℤ × ℤ × List Bool) :=
  let w := max_requests_in_column timings columns
  (requests_per_second timings).enum.map (fun p =>
    (p.1, p.2.2.sum, (p.2.2.length : ℤ) - p.2.2.sum,
      (chunker (p.2.2.map some) w).map cellSolid))

/-! ### Auxiliary definitions used by the theorems -/

/-- Plain chunking of an integer list into consecutive groups of `n`
(the last group possibly shorter); used to characterise `chunker` on
inputs without `None`. -/
def chunksInt : ℕ → List ℤ → List (List ℤ)
  | _, [] => []
  | 0, _ :: _ => []
  | n + 1, y :: ys => (y :: ys.take n) :: chunksInt (n + 1) (ys.drop n)
termination_by _n ys => ys.length
decreasing_by
  simp only [List.length_drop, List.length_cons]
  omega

/-- Lookup in the insertion-ordered dictionary (`[]` when the key is absent). -/
def assocGet : List (ℤ × List ℤ) → ℤ → List ℤ
  | [], _ => []
  | (k', vs) :: rest, k => if k' = k then vs else assocGet rest k

/-- The wall-clock durations of the request events actually consumed by a
sequential run (one event per recorded sample); the run's exit time is the
start time plus their sum. -/
def consumedTooks (test_ends_at t0 : ℚ) (evs : List ReqEvent) : List ℚ :=
  (evs.take (sequential_load_function test_ends_at t0 evs).length).map (·.took)

/-- Modelled from the spec: "Group samples into SecondBuckets keyed by
`floor(startTime - testStart)`" with one row per bucket "in ascending time
order".  This is the spec's description of the Visualizer's grouping, for
comparison with `requests_per_second` (which the code keys by the absolute
`int(r_time)` and emits in insertion order). -/
def spec_second_buckets (testStart : ℚ) (ts : List Sample) : List (ℤ × List Sample) :=
  let keys := List.insertionSort (· ≤ ·) (ts.map (fun s => ⌊s.start - testStart⌋)).dedup
  keys.map (fun k => (k, ts.filter (fun s => ⌊s.start - testStart⌋ == k)))

/-- Sample sequence refuting the relative-second grouping: two samples at
monotonic times `5/2` and `11/10`, with the test having started at `1/2`. -/
def cexC2 : List Sample := [⟨5/2, 1, true⟩, ⟨11/10, 1, false⟩]

/-- Sample sequence with a largest bucket of 5 samples (all in monotonic
second 0): with the default `columns = 10`, `round(5 / 10) = 0`. -/
def cexC1 : List Sample :=
  [⟨0, 1, true⟩, ⟨1/10, 1, true⟩, ⟨2/10, 1, true⟩, ⟨3/10, 1, true⟩, ⟨4/10, 1, true⟩]

/-! ### Theorems -/

/-- C3: the LoadResult of the concurrent strategy is the concatenation of
all workers' sample lists sorted by `startTime`: its samples are ordered by
`startTime` non-decreasing, its length is the sum of the workers' lengths,
and it is a permutation of the concatenation (nothing dropped or
duplicated). -/
theorem concurrent_result_sorted_and_complete (ws : List (List Sample)) :
    List.Pairwise (fun a b : Sample => a.start ≤ b.start) (concurrent_load_function ws) ∧
    (concurrent_load_function ws).length = (ws.map List.length).sum ∧
    (concurrent_load_function ws).Perm ws.flatten := by
  have hperm : (concurrent_load_function ws).Perm ws.flatten :=
    List.mergeSort_perm ws.flatten _
  refine ⟨?_, ?_, hperm⟩
  · have h := @List.sorted_mergeSort Sample (fun a b : Sample => decide (a.start ≤ b.start))
      (fun a b c h1 h2 => by
        simp only [decide_eq_true_eq] at h1 h2 ⊢
        exact le_trans h1 h2)
      (fun a b => by simpa using le_total a.start b.start) ws.flatten
    exact h.imp (fun h => by simpa using h)
  · rw [hperm.length_eq, List.length_flatten]

/-- C5: `summarize` succeeds exactly when there are at least two samples;
with fewer than two latency values the standard-deviation computation is an
error that propagates to the caller (it is never coerced to a number). -/
theorem summarize_ok_iff_at_least_two (ts : List Sample) :
    (∃ s, summarize ts = Except.ok s) ↔ 2 ≤ ts.length := by
  match ts with
  | [] => simp [summarize]
  | [a] => simp [summarize, statistics_mean, statistics_stdev_sq]
  | a :: b :: l =>
      have h0 : ¬ ((a :: b :: l).map (·.dur)).length = 0 := by simp
      have h2 : ¬ (l.length + 1 + 1 < 2) := by omega
      simp [summarize, statistics_mean, statistics_stdev_sq, h0, h2]

/-- C8: on the synthetic sample set
`[(t0, 0.1, true), (t1, 0.2, true), (t2, 0.3, false)]`, `summarize` yields
`count = 3`, `failedCount = 1`, mean latency `1/5 = 0.2`, and a squared
sample standard deviation of `1/100`, i.e. the unbiased (n-1) stdev is
exactly `1/10 = 0.1`. -/
theorem summarize_synthetic_samples (t0 t1 t2 : ℚ) :
    summarize [⟨t0, 1/10, true⟩, ⟨t1, 2/10, true⟩, ⟨t2, 3/10, false⟩]
      = Except.ok ⟨3, 1, 1/5, 1/100⟩ ∧ ((1 : ℚ)/10) ^ 2 = 1/100 := by
  constructor
  · simp [summarize, statistics_mean, statistics_stdev_sq]
    norm_num
  · norm_num

/-- C7: with item limit `L` and zero artificial delay, every endpoint
returns the body `{"item_id": i}` for every id `0 ≤ i ≤ L` and a 404 with
detail `"Item L+1 was not found."` for id `L + 1`; all three endpoints are
the same function, and because `make_response` is pure and stateless, any
two arrival orders of the same requests produce the same request/response
pairs (so sequential and concurrent arrival behave identically). -/
theorem endpoints_respect_id_limit (L i : ℤ) :
    (0 ≤ i → i ≤ L →
      people L i = .body i ∧ planets L i = .body i ∧ starships L i = .body i) ∧
    (people L (L + 1) = .httpError 404 ("Item " ++ toString (L + 1) ++ " was not found.") ∧
      planets L (L + 1) = .httpError 404 ("Item " ++ toString (L + 1) ++ " was not found.") ∧
      starships L (L + 1) = .httpError 404 ("Item " ++ toString (L + 1) ++ " was not found.")) ∧
    (∀ ids ids' : List ℤ, ids.Perm ids' →
      (ids.map (fun j => (j, make_response L j))).Perm
        (ids'.map (fun j => (j, make_response L j)))) := by
  refine ⟨?_, ?_, ?_⟩
  · intro _ hle
    have hng : ¬ i > L := not_lt.mpr hle
    simp [people, planets, starships, make_response, hng]
  · have hg : L + 1 > L := by omega
    simp [people, planets, starships, make_response, hg]
  · intro ids ids' hperm
    exact hperm.map _

/-- Witness for C7 at `L = 10`: id 3 succeeds, id 11 is a 404. -/
theorem endpoints_respect_id_limit_witness :
    (0 : ℤ) ≤ 3 ∧ (3 : ℤ) ≤ 10 ∧
      people 10 3 = .body 3 ∧ people 10 11 = .httpError 404 "Item 11 was not found." := by
  refine ⟨by norm_num, by norm_num, ?_, ?_⟩
  · exact ((endpoints_respect_id_limit 10 3).1 (by norm_num) (by norm_num)).1
  · have h := ((endpoints_respect_id_limit 10 3).2.1).1
    simpa using h

/-- C10: the configured item limit is clamped to be nonnegative (a negative
environment value behaves as 0), and `make_response` succeeds exactly when
`item_id ≤ limit` — there is no lower bound, so any negative id (e.g. `-5`)
returns a success body carrying that negative id. -/
theorem id_limit_clamp_and_negative_ids (env i L : ℤ) :
    0 ≤ ID_LIMIT_of env ∧
    (env < 0 → ID_LIMIT_of env = 0) ∧
    (i < 0 → make_response (ID_LIMIT_of env) i = .body i) ∧
    (make_response L i = .body i ↔ i ≤ L) := by
  refine ⟨le_max_left 0 env, ?_, ?_, ?_⟩
  · intro h
    simp [ID_LIMIT_of]
    omega
  · intro h
    have hng : ¬ i > ID_LIMIT_of env := by
      have := le_max_left (0 : ℤ) env
      simp only [ID_LIMIT_of]
      omega
    simp [make_response, hng]
  · constructor
    · intro h
      by_contra hgt
      simp [make_response, not_le.mp hgt] at h
    · intro h
      simp [make_response, not_lt.mpr h]

/-- Witness for C10 at `env = -3`, `i = -5`: the limit clamps to 0 and
a request for id `-5` succeeds with body `{"item_id": -5}`. -/
theorem id_limit_clamp_and_negative_ids_witness :
    ID_LIMIT_of (-3) = 0 ∧ make_response (ID_LIMIT_of (-3)) (-5) = .body (-5) :=
  ⟨(id_limit_clamp_and_negative_ids (-3) (-5) 0).2.1 (by norm_num),
   (id_limit_clamp_and_negative_ids (-3) (-5) 0).2.2.1 (by norm_num)⟩

/-- `filterMap id` drops a run of `none` padding entirely. -/
theorem filterMap_id_replicate_none (k : ℕ) :
    (List.replicate k (none : Option ℤ)).filterMap id = [] := by
  induction k with
  | zero => rfl
  | succ k ih => simp [List.replicate, ih]

/-- `filterMap id` is the identity on a list of `some`s. -/
theorem filterMap_id_map_some (l : List ℤ) : (l.map some).filterMap id = l := by
  induction l <;> simp_all

/-- Filtering one padded `zip_longest` tuple recovers its real items. -/
theorem filterMap_chunk_head (y : ℤ) (l1 : List ℤ) (k : ℕ) :
    (some y :: (l1.map some ++ List.replicate k (none : Option ℤ))).filterMap id = y :: l1 := by
  simp [List.filterMap_append, filterMap_id_replicate_none, filterMap_id_map_some]

/-- On an input without `None` entries, `chunker` is plain chunking: the
`None` padding added by `zip_longest` is removed again by the filter. -/
theorem chunker_map_some (n : ℕ) (ys : List ℤ) :
    chunker (ys.map some) n = chunksInt n ys := by
  induction n, ys using chunksInt.induct with
  | case1 n => cases n <;> simp [chunker, zipLongestChunks, chunksInt]
  | case2 y ys => simp [chunker, zipLongestChunks, chunksInt]
  | case3 n y ys ih =>
      simp only [List.map_cons, chunker, zipLongestChunks, chunksInt] at ih ⊢
      rw [← List.map_take, ← List.map_drop, filterMap_chunk_head, ih]

/-- `chunksInt` with a positive size never produces an empty chunk list from
a nonempty input. -/
theorem chunksInt_ne_nil (n : ℕ) (y : ℤ) (ys : List ℤ) :
    chunksInt (n + 1) (y :: ys) ≠ [] := by
  simp [chunksInt]

/-- Concatenating the chunks gives back the original list. -/
theorem chunksInt_flatten (n : ℕ) (ys : List ℤ) (hn : 1 ≤ n) :
    (chunksInt n ys).flatten = ys := by
  induction n, ys using chunksInt.induct with
  | case1 n => simp [chunksInt]
  | case2 y ys => omega
  | case3 n y ys ih =>
      simp [chunksInt, ih (by omega), List.take_append_drop]

/-- Every chunk is nonempty and no longer than the chunk size. -/
theorem chunksInt_mem_length (n : ℕ) (ys : List ℤ) (hn : 1 ≤ n) :
    ∀ c ∈ chunksInt n ys, c ≠ [] ∧ c.length ≤ n := by
  induction n, ys using chunksInt.induct with
  | case1 n => simp [chunksInt]
  | case2 y ys => omega
  | case3 n y ys ih =>
      intro c hc
      simp only [chunksInt, List.mem_cons] at hc
      rcases hc with rfl | hc
      · refine ⟨by simp, ?_⟩
        simp only [List.length_cons, List.length_take]
        omega
      · exact ih (by omega) c hc

/-- Every chunk except possibly the last has length exactly `n`. -/
theorem chunksInt_dropLast_length (n : ℕ) (ys : List ℤ) (hn : 1 ≤ n) :
    ∀ c ∈ (chunksInt n ys).dropLast, c.length = n := by
  induction n, ys using chunksInt.induct with
  | case1 n => simp [chunksInt]
  | case2 y ys => omega
  | case3 n y ys ih =>
      intro c hc
      rw [chunksInt] at hc
      cases hd : ys.drop n with
      | nil =>
          rw [hd] at hc
          simp [chunksInt] at hc
      | cons z zs =>
          have hne : chunksInt (n + 1) (ys.drop n) ≠ [] := by
            rw [hd]
            exact chunksInt_ne_nil n z zs
          have hlen : n < ys.length := by
            by_contra hge
            have : ys.drop n = [] := List.drop_eq_nil_of_le (by omega)
            rw [this] at hd
            exact List.noConfusion hd
          rw [List.dropLast_cons_of_ne_nil hne] at hc
          rcases List.mem_cons.mp hc with rfl | hc
          · simp only [List.length_cons, List.length_take]
            omega
          · exact ih (by omega) c hc

/-- C9: for every list without null elements and every chunk size `n ≥ 1`,
`chunker` yields chunks whose concatenation is the input, every chunk is
nonempty of size at most `n`, and every chunk except possibly the last has
size exactly `n`. -/
theorem chunker_partitions (ys : List ℤ) (n : ℕ) (hn : 1 ≤ n) :
    (chunker (ys.map some) n).flatten = ys ∧
    (∀ c ∈ chunker (ys.map some) n, c ≠ [] ∧ c.length ≤ n) ∧
    (∀ c ∈ (chunker (ys.map some) n).dropLast, c.length = n) := by
  rw [chunker_map_some]
  exact ⟨chunksInt_flatten n ys hn, chunksInt_mem_length n ys hn,
    chunksInt_dropLast_length n ys hn⟩

/-- Witness for C9 at `ys = [1, 2, 3]`, `n = 2`. -/
theorem chunker_partitions_witness :
    (1 : ℕ) ≤ 2 ∧ (chunker ([1, 2, 3].map some) 2).flatten = [1, 2, 3] :=
  ⟨by norm_num, (chunker_partitions [1, 2, 3] 2 (by norm_num)).1⟩

/-- The sample recorded for a request is stamped with the loop's `now`. -/
theorem sampleOf_start (now : ℚ) (e : ReqEvent) : (sampleOf now e).start = now := by
  cases h : e.resp with
  | none => simp [sampleOf, h]
  | some r => by_cases hr : r.ok <;> simp [sampleOf, h, hr]

/-- Once `now` has passed the deadline, the loop records nothing. -/
theorem sequential_load_past_deadline (d now : ℚ) (evs : List ReqEvent)
    (h : d < now) : sequential_load_function d now evs = [] := by
  cases evs with
  | nil => rfl
  | cons e rest => simp [sequential_load_function, h]

/-- While the deadline has not passed, each step consumes one event. -/
theorem consumedTooks_cons (d t0 : ℚ) (e : ReqEvent) (rest : List ReqEvent)
    (h : t0 ≤ d) :
    consumedTooks d t0 (e :: rest) = e.took :: consumedTooks d (t0 + e.took) rest := by
  simp [consumedTooks, sequential_load_function, not_lt.mpr h]

/-- C4: the sequential strategy's loop exits as soon as `now` exceeds the
deadline, so (1) every recorded sample has `startTime ≤ deadline`; (2) a
request whose start time is at or before the deadline is still recorded,
whatever its duration; and (3) starting from `t0 ≤ deadline`, the loop's
exit time — `t0` plus the wall time of all consumed requests — overshoots
the deadline by at most the duration of one consumed (in-flight) request. -/
theorem sequential_deadline_bounds (d t0 : ℚ) (evs : List ReqEvent) :
    (∀ s ∈ sequential_load_function d t0 evs, s.start ≤ d) ∧
    (∀ e rest, t0 ≤ d → sampleOf t0 e ∈ sequential_load_function d t0 (e :: rest)) ∧
    (t0 ≤ d → t0 + (consumedTooks d t0 evs).sum
        ≤ d + (consumedTooks d t0 evs).foldr max 0) := by
  refine ⟨?_, ?_, ?_⟩
  · induction evs generalizing t0 with
    | nil => intro s hs; simp [sequential_load_function] at hs
    | cons e rest ih =>
        intro s hs
        by_cases h : d < t0
        · simp [sequential_load_function, h] at hs
        · simp only [sequential_load_function, if_neg h, List.mem_cons] at hs
          rcases hs with rfl | hs
          · rw [sampleOf_start]
            exact not_lt.mp h
          · exact ih (t0 + e.took) s hs
  · intro e rest h
    simp [sequential_load_function, not_lt.mpr h]
  · induction evs generalizing t0 with
    | nil =>
        intro h0
        simpa [consumedTooks, sequential_load_function] using h0
    | cons e rest ih =>
        intro h0
        rw [consumedTooks_cons d t0 e rest h0]
        by_cases h1 : t0 + e.took ≤ d
        · have ih' := ih (t0 + e.took) h1
          have hmax : (consumedTooks d (t0 + e.took) rest).foldr max 0
              ≤ max e.took ((consumedTooks d (t0 + e.took) rest).foldr max 0) :=
            le_max_right _ _
          simp only [List.sum_cons, List.foldr_cons]
          linarith
        · have hempty : sequential_load_function d (t0 + e.took) rest = [] :=
            sequential_load_past_deadline _ _ _ (not_le.mp h1)
          have htail : consumedTooks d (t0 + e.took) rest = [] := by
            simp [consumedTooks, hempty]
          rw [htail]
          have : e.took ≤ max e.took 0 := le_max_left _ _
          simp only [List.sum_cons, List.sum_nil, List.foldr_cons, List.foldr_nil]
          linarith

/-- Witness for C4: with deadline 10 and a request starting at time 0, the
recorded sample is in the run. -/
theorem sequential_deadline_bounds_witness :
    (0 : ℚ) ≤ 10 ∧
      sampleOf 0 ⟨3, some ⟨3, true⟩⟩ ∈ sequential_load_function 10 0 [⟨3, some ⟨3, true⟩⟩] :=
  ⟨by norm_num,
    (sequential_deadline_bounds 10 0 [⟨3, some ⟨3, true⟩⟩]).2.1 ⟨3, some ⟨3, true⟩⟩ []
      (by norm_num)⟩

/-- C6: a transport-level timeout makes the request function return `None`
instead of raising; each loop iteration that starts before the deadline
appends exactly one sample and continues with the rest of the run; and the
appended sample has `success = false` exactly when the response is `None`
or not ok. -/
theorem failed_requests_recorded (d now took : ℚ) (r : Option Resp)
    (rest : List ReqEvent) :
    request_function Transport.timeout = none ∧
    (now ≤ d →
      sequential_load_function d now (⟨took, r⟩ :: rest)
        = sampleOf now ⟨took, r⟩ :: sequential_load_function d (now + took) rest) ∧
    ((sampleOf now ⟨took, r⟩).ok = false ↔ r = none ∨ ∃ x, r = some x ∧ x.ok = false) := by
  refine ⟨rfl, ?_, ?_⟩
  · intro h
    simp [sequential_load_function, not_lt.mpr h]
  · cases r with
    | none => simp [sampleOf]
    | some x => by_cases hx : x.ok <;> simp [sampleOf, hx]

/-- Witness for C6: a timed-out request (null response) at time 0 with
deadline 1 is recorded and the loop goes on. -/
theorem failed_requests_recorded_witness :
    (0 : ℚ) ≤ 1 ∧
      sequential_load_function 1 0 [⟨5, none⟩]
        = sampleOf 0 ⟨5, none⟩ :: sequential_load_function 1 (0 + 5) [] :=
  ⟨by norm_num, (failed_requests_recorded 1 0 5 none []).2.1 (by norm_num)⟩

/-- Appending a status to the dictionary updates exactly its key. -/
theorem assocGet_addStatus (acc : List (ℤ × List ℤ)) (k v : ℤ) (k' : ℤ) :
    assocGet (addStatus acc k v) k' =
      if k' = k then assocGet acc k' ++ [v] else assocGet acc k' := by
  induction acc with
  | nil =>
      by_cases h : k' = k
      · subst h
        simp [addStatus, assocGet]
      · simp [addStatus, assocGet, h, Ne.symm h]
  | cons p rest ih =>
      obtain ⟨k0, vs⟩ := p
      by_cases h1 : k0 = k
      · subst h1
        by_cases h2 : k' = k0
        · subst h2
          simp [addStatus, assocGet]
        · simp [addStatus, assocGet, h2, Ne.symm h2]
      · by_cases h2 : k0 = k'
        · subst h2
          simp [addStatus, assocGet, h1, Ne.symm h1]
        · simp [addStatus, assocGet, h1, h2, ih]

/-- The keys after an append: unchanged when the key exists, else the new
key goes to the end (insertion order). -/
theorem keys_addStatus (acc : List (ℤ × List ℤ)) (k v : ℤ) :
    (addStatus acc k v).map Prod.fst =
      if k ∈ acc.map Prod.fst then acc.map Prod.fst
      else acc.map Prod.fst ++ [k] := by
  induction acc with
  | nil => simp [addStatus]
  | cons p rest ih =>
      obtain ⟨k0, vs⟩ := p
      by_cases h : k0 = k
      · subst h
        simp [addStatus]
      · by_cases h2 : k ∈ rest.map Prod.fst <;>
          simp [addStatus, h, Ne.symm h, h2, ih]

/-- Membership in the keys after an append. -/
theorem mem_keys_addStatus (acc : List (ℤ × List ℤ)) (k v k' : ℤ) :
    k' ∈ (addStatus acc k v).map Prod.fst ↔ k' ∈ acc.map Prod.fst ∨ k' = k := by
  rw [keys_addStatus]
  by_cases h : k ∈ acc.map Prod.fst
  · simp only [h, if_true]
    constructor
    · exact Or.inl
    · rintro (hm | rfl)
      · exact hm
      · exact h
  · simp [h]

/-- Appending preserves distinctness of the keys. -/
theorem nodup_keys_addStatus (acc : List (ℤ × List ℤ)) (k v : ℤ)
    (h : (acc.map Prod.fst).Nodup) : ((addStatus acc k v).map Prod.fst).Nodup := by
  rw [keys_addStatus]
  by_cases hm : k ∈ acc.map Prod.fst
  · simpa [hm] using h
  · simp [hm, List.nodup_append, h]

/-- Folding samples into the dictionary: the value at key `k` is the old
value followed by the statuses of exactly the samples whose truncated start
second is `k`, in order. -/
theorem assocGet_fold (ts : List Sample) (acc : List (ℤ × List ℤ)) (k : ℤ) :
    assocGet (ts.foldl (fun a s => addStatus a (pyInt s.start) (statusInt s.ok)) acc) k
      = assocGet acc k
        ++ (ts.filter (fun s => pyInt s.start == k)).map (fun s => statusInt s.ok) := by
  induction ts generalizing acc with
  | nil => simp
  | cons s ts ih =>
      rw [List.foldl_cons, ih, assocGet_addStatus]
      by_cases h : k = pyInt s.start
      · simp [List.filter_cons, h.symm, List.append_assoc]
      · have h2 : ¬ (pyInt s.start == k) = true := by
          simpa using Ne.symm h
        simp [List.filter_cons, h, h2]

/-- A key appears in the folded dictionary iff some processed sample has it
(starting from keys already present). -/
theorem mem_keys_fold (ts : List Sample) (acc : List (ℤ × List ℤ)) (k : ℤ) :
    k ∈ ((ts.foldl (fun a s => addStatus a (pyInt s.start) (statusInt s.ok)) acc).map
        Prod.fst)
      ↔ k ∈ acc.map Prod.fst ∨ k ∈ ts.map (fun s => pyInt s.start) := by
  induction ts generalizing acc with
  | nil => simp
  | cons s ts ih =>
      rw [List.foldl_cons, ih]
      rw [mem_keys_addStatus]
      simp [or_assoc]

/-- Folding preserves distinctness of the keys. -/
theorem nodup_keys_fold (ts : List Sample) (acc : List (ℤ × List ℤ))
    (h : (acc.map Prod.fst).Nodup) :
    ((ts.foldl (fun a s => addStatus a (pyInt s.start) (statusInt s.ok)) acc).map
        Prod.fst).Nodup := by
  induction ts generalizing acc with
  | nil => exact h
  | cons s ts ih =>
      rw [List.foldl_cons]
      exact ih _ (nodup_keys_addStatus _ _ _ h)

/-- With distinct keys, a dictionary entry's value is its lookup. -/
theorem mem_eq_assocGet (acc : List (ℤ × List ℤ)) (kv : ℤ × List ℤ)
    (hnd : (acc.map Prod.fst).Nodup) (hm : kv ∈ acc) : kv.2 = assocGet acc kv.1 := by
  induction acc with
  | nil => simp at hm
  | cons p rest ih =>
      rcases List.mem_cons.mp hm with rfl | hm2
      · simp [assocGet]
      · have hk : kv.1 ∈ rest.map Prod.fst := List.mem_map_of_mem Prod.fst hm2
        have hne : ¬ p.1 = kv.1 := by
          intro he
          rw [List.map_cons, List.nodup_cons] at hnd
          exact hnd.1 (he ▸ hk)
        have : assocGet (p :: rest) kv.1 = assocGet rest kv.1 := by
          obtain ⟨p1, p2⟩ := p
          simp [assocGet, hne]
        rw [this]
        exact ih (by rw [List.map_cons, List.nodup_cons] at hnd; exact hnd.2) hm2

/-- C2 (amended): `visualize_requests` groups samples by the truncated
ABSOLUTE monotonic second `int(startTime)` (not the second elapsed since
test start): each bucket holds exactly the statuses of the samples whose
`int(startTime)` is its key, in sample order; there is one bucket per
occurring second (keys are distinct, and a second occurs as a key iff some
sample starts in it); rows are emitted one per bucket in the dictionary's
insertion order, and each row is prefixed with its enumeration index
`0, 1, 2, …` and the bucket's pass/fail counts. -/
theorem visualize_groups_by_truncated_absolute_second (ts : List Sample) :
    (∀ kv ∈ requests_per_second ts,
        kv.2 = (ts.filter (fun s => pyInt s.start == kv.1)).map
          (fun s => statusInt s.ok)) ∧
    ((requests_per_second ts).map Prod.fst).Nodup ∧
    (∀ k : ℤ, k ∈ (requests_per_second ts).map Prod.fst
        ↔ k ∈ ts.map (fun s => pyInt s.start)) ∧
    ((visualize_rows ts 10).map (fun row => row.1)
        = List.range (requests_per_second ts).length) ∧
    ((visualize_rows ts 10).map (fun row => (row.2.1, row.2.2.1))
        = (requests_per_second ts).map
            (fun kv => (kv.2.sum, (kv.2.length : ℤ) - kv.2.sum))) := by
  have hnodup : ((requests_per_second ts).map Prod.fst).Nodup :=
    nodup_keys_fold ts [] (by simp)
  refine ⟨?_, hnodup, ?_, ?_, ?_⟩
  · intro kv hkv
    have h1 := mem_eq_assocGet (requests_per_second ts) kv hnodup hkv
    have h2 := assocGet_fold ts [] kv.1
    rw [h1]
    rw [requests_per_second] at *
    rw [h2]
    simp [assocGet]
  · intro k
    have := mem_keys_fold ts [] k
    rw [requests_per_second]
    simpa [assocGet] using this
  · simp only [visualize_rows, List.map_map]
    have : ((fun row => row.1) ∘ fun p : ℕ × ℤ × List ℤ =>
        (p.1, p.2.2.sum, (p.2.2.length : ℤ) - p.2.2.sum,
          (chunker (p.2.2.map some) (max_requests_in_column ts 10)).map cellSolid))
        = Prod.fst := rfl
    rw [this, List.enum_map_fst]
  · simp only [visualize_rows, List.map_map]
    have : ((fun row : ℕ × ℤ × ℤ × List Bool => (row.2.1, row.2.2.1)) ∘
        fun p : ℕ × ℤ × List ℤ =>
        (p.1, p.2.2.sum, (p.2.2.length : ℤ) - p.2.2.sum,
          (chunker (p.2.2.map some) (max_requests_in_column ts 10)).map cellSolid))
        = (fun kv : ℤ × List ℤ => (kv.2.sum, (kv.2.length : ℤ) - kv.2.sum)) ∘ Prod.snd :=
      rfl
    rw [this, ← List.map_map, List.enum_map_snd]

/-- C2 (counterexample): on the samples `cexC2` (starts `5/2` then `11/10`)
with the test started at `1/2`, the code's buckets are keyed by the
truncated absolute seconds `[2, 1]` in insertion order, while the spec's
grouping by `floor(startTime - testStart)` in ascending time order gives
keys `[0, 2]` — the keys differ and so does the row order. -/
theorem visualize_grouping_key_counterexample :
    (requests_per_second cexC2).map Prod.fst = [2, 1] ∧
    (spec_second_buckets (1/2) cexC2).map Prod.fst = [0, 2] := by
  constructor
  · have h1 : pyInt (5/2) = 2 := by norm_num [pyInt]
    have h2 : pyInt (11/10) = 1 := by norm_num [pyInt]
    simp [cexC2, requests_per_second, addStatus, h1, h2, statusInt]
  · have h1 : ⌊(5 : ℚ)/2 - 2⁻¹⌋ = 2 := by norm_num
    have h2 : ⌊(11 : ℚ)/10 - 2⁻¹⌋ = 0 := by norm_num
    simp [cexC2, spec_second_buckets, h1, h2, List.dedup_cons_of_not_mem,
      List.insertionSort, List.orderedInsert]

/-- Witness for the amended C2 on one concrete sample starting at `1/2`. -/
theorem visualize_groups_witness :
    (((0 : ℤ), ([1] : List ℤ)) ∈ requests_per_second [⟨1/2, 1, true⟩]) ∧
    ([1] : List ℤ) = (([⟨1/2, 1, true⟩] : List Sample).filter
        (fun s => pyInt s.start == (0 : ℤ))).map (fun s => statusInt s.ok) := by
  have hmem : ((0 : ℤ), ([1] : List ℤ)) ∈ requests_per_second [⟨1/2, 1, true⟩] := by
    have h1 : pyInt ((2 : ℚ)⁻¹) = 0 := by norm_num [pyInt]
    simp [requests_per_second, addStatus, h1, statusInt]
  exact ⟨hmem,
    (visualize_groups_by_truncated_absolute_second [⟨1/2, 1, true⟩]).1 (0, [1]) hmem⟩

/-- C1 (code evaluation at the failing input): with the largest bucket
holding 5 samples and the default 10 columns, the code computes
`round(5 / 10) = 0` — there is no minimum of 1 — and the only row is
rendered with NO cells at all (`chunker` with size 0 yields no chunks). -/
theorem visualize_zero_cell_weight :
    most_requests_in_second cexC1 = 5 ∧
    max_requests_in_column cexC1 10 = 0 ∧
    visualize_rows cexC1 10 = [(0, 5, 0, [])] := by
  have h0 : pyInt 0 = 0 := by norm_num [pyInt]
  have h1 : pyInt ((10 : ℚ)⁻¹) = 0 := by norm_num [pyInt]
  have h2 : pyInt (2/10) = 0 := by norm_num [pyInt]
  have h3 : pyInt (3/10) = 0 := by norm_num [pyInt]
  have h4 : pyInt (4/10) = 0 := by norm_num [pyInt]
  have hrps : requests_per_second cexC1 = [(0, [1, 1, 1, 1, 1])] := by
    simp [cexC1, requests_per_second, addStatus, h0, h1, h2, h3, h4, statusInt]
  have hmost : most_requests_in_second cexC1 = 5 := by
    simp [most_requests_in_second, hrps]
  have hw : max_requests_in_column cexC1 10 = 0 := by
    simp [max_requests_in_column, hmost, pyRoundDiv]
  refine ⟨hmost, hw, ?_⟩
  simp [visualize_rows, hrps, hw, chunker, zipLongestChunks, List.enum]
